import Mathlib

/-!
Shallow embedding of the Advent-of-Code scripts `day1.py`,
`2021/day1/day1.py` and `2021/day2/day2.py`, together with proofs of the
behavioural properties stated in the repository specification.

Python integers are modelled as `Int`; fallible operations (`int(x)`,
`data[i]`, dataclass subscripting, `re` matching) are modelled with
`Option`.
-/

set_option autoImplicit false

namespace AoC

/-- Model of Python `str.strip()` on the character list of a string:
drop ASCII whitespace from both ends. -/
def stripChars (l : List Char) : List Char :=
  ((l.dropWhile Char.isWhitespace).reverse.dropWhile Char.isWhitespace).reverse

/-- Model of Python `str.strip()` at the `String` level. -/
def pyStrip (s : String) : String :=
  String.mk (stripChars s.data)

/-- Value of a decimal digit string, most significant digit first
(the usual base-10 accumulator fold). -/
def digitsToNat (l : List Char) : Nat :=
  l.foldl (fun a c => 10 * a + (c.toNat - 48)) 0

/-- Model of Python `int(x)` on a character list: an optional single
`+`/`-` sign followed by a non-empty run of decimal digits; anything
else raises `ValueError`, modelled as `none`. -/
def pyIntAux (l : List Char) : Option Int :=
  match l with
  | [] => none
  | c :: rest =>
    if c = '+' then
      if rest ≠ [] ∧ rest.all Char.isDigit then some ((digitsToNat rest : Int)) else none
    else if c = '-' then
      if rest ≠ [] ∧ rest.all Char.isDigit then some (-(digitsToNat rest : Int)) else none
    else
      if (c :: rest).all Char.isDigit then some ((digitsToNat (c :: rest) : Int)) else none

/-- Model of Python `int(x)` on a `String`. -/
def pyInt? (s : String) : Option Int :=
  pyIntAux s.data

/-- The `increaser` step of `day1.py`: bump the counter when the new value
exceeds the remembered previous one, and always remember the new value. -/
def increaser (accum : Int × Int) (val : Int) : Int × Int :=
  match accum with
  | (counter, previous) =>
    if val > previous then (counter + 1, val) else (counter, val)

/-- The `windowing` step of `day1.py`: compare the new three-element window
sum against the previous one and shift the trailing pair forward. -/
def windowing (accum : Int × Int × Int × Int) (val : Int) : Int × Int × Int × Int :=
  match accum with
  | (counter, previous_sum, spot0, spot1) =>
    let new_sum := spot0 + spot1 + val
    let new_counter := if new_sum > previous_sum then counter + 1 else counter
    (new_counter, new_sum, spot1, val)

/-- Run `int(x)` over every element, left to right; the first failure
aborts the whole list comprehension (a raised `ValueError`). -/
def mapIntAll : List String → Option (List Int)
  | [] => some []
  | x :: xs =>
    match pyInt? x, mapIntAll xs with
    | some v, some vs => some (v :: vs)
    | _, _ => none

/-- The `data = [int(x) for x in (x.strip() for x in ...) if x != '']`
line of both day-1 scripts: strip every line, keep the non-empty ones,
then parse each survivor with `int`. -/
def parseData (input : List String) : Option (List Int) :=
  mapIntAll ((input.map pyStrip).filter (fun x => decide (x ≠ "")))

/-- Puzzle 1 of both day-1 scripts:
`reduce(increaser, data[1:], (0, data[0]))[0]`; `data[0]` raises
`IndexError` on an empty sequence, modelled as `none`. -/
def day1Puzzle1 (data : List Int) : Option Int :=
  match data with
  | [] => none
  | d0 :: rest => some (List.foldl increaser (0, d0) rest).1

/-- Puzzle 2 of the tuple-based `day1.py`:
`reduce(windowing, data[3:], (0, sum(data[0:3]), data[1], data[2]))[0]`;
`data[1]` / `data[2]` raise `IndexError` when fewer than three values
are present, modelled as `none`. -/
def day1Puzzle2 (data : List Int) : Option Int :=
  match data with
  | d0 :: d1 :: d2 :: rest => some (List.foldl windowing (0, d0 + d1 + d2, d1, d2) rest).1
  | _ => none

/-- The `Accumulator` dataclass of `2021/day1/day1.py`. -/
structure Accumulator where
  counter : Int
  sum : Int
  spot : Int
  value : Int
deriving DecidableEq

/-- The `windowing` step of `2021/day1/day1.py`, acting on the
`Accumulator` dataclass instead of a tuple. -/
def windowingDC (accum : Accumulator) (val : Int) : Accumulator :=
  let counter := accum.counter
  let previous_sum := accum.sum
  let spot0 := accum.spot
  let spot1 := accum.value
  let new_sum := spot0 + spot1 + val
  let new_counter := if new_sum > previous_sum then counter + 1 else counter
  Accumulator.mk new_counter new_sum spot1 val

/-- Model of Python subscripting `a[i]` on an `Accumulator` dataclass
instance: the dataclass defines no `__getitem__`, so every subscript
raises `TypeError`, modelled as `none`. -/
def accumulatorGetItem (_a : Accumulator) (_i : Nat) : Option Int :=
  none

/-- Puzzle 2 of the dataclass-based `2021/day1/day1.py`:
`reduce(windowing, data[3:], Accumulator(0, sum(data[0:3]), data[1], data[2]))[0]`. -/
def day1Puzzle2DC (data : List Int) : Option Int :=
  match data with
  | d0 :: d1 :: d2 :: rest =>
    accumulatorGetItem (List.foldl windowingDC (Accumulator.mk 0 (d0 + d1 + d2) d1 d2) rest) 0
  | _ => none

/-- Values printed by `day1.py` on a given standard input, in order: the
script prints Puzzle 1, then Puzzle 2; a raised exception aborts the run,
so nothing after the failing expression is printed. -/
def day1Script (input : List String) : List Int :=
  match parseData input with
  | none => []
  | some data =>
    match day1Puzzle1 data with
    | none => []
    | some p1 =>
      match day1Puzzle2 data with
      | none => [p1]
      | some p2 => [p1, p2]

/-- Values printed by the dataclass-based `2021/day1/day1.py`, in order. -/
def day1ScriptDC (input : List String) : List Int :=
  match parseData input with
  | none => []
  | some data =>
    match day1Puzzle1 data with
    | none => []
    | some p1 =>
      match day1Puzzle2DC data with
      | none => [p1]
      | some p2 => [p1, p2]

/-- Specification-side count: the number of indices `i > 0` with
`S[i] > S[i-1]`, phrased over the list of adjacent pairs. -/
def specIncreaseCount (S : List Int) : Nat :=
  (S.zip S.tail).countP (fun p => decide (p.1 < p.2))

/-- Specification-side count: the number of indices `i ∈ [3, |S|)` with
`S[i-2]+S[i-1]+S[i] > S[i-3]+S[i-2]+S[i-1]`, phrased over the list of
consecutive quadruples. -/
def specWindowCount (S : List Int) : Nat :=
  (S.zip ((S.drop 1).zip ((S.drop 2).zip (S.drop 3)))).countP
    (fun q => decide (q.2.1 + q.2.2.1 + q.2.2.2 > q.1 + q.2.1 + q.2.2.1))

/-- Recursive form of the increase count threaded the way the fold
threads its state. -/
def adjIncreases (prev : Int) : List Int → Int
  | [] => 0
  | v :: rest => (if v > prev then 1 else 0) + adjIncreases v rest

/-- Recursive form of the windowed count threaded the way the fold
threads its state. -/
def windCount (previous_sum spot0 spot1 : Int) : List Int → Int
  | [] => 0
  | v :: rest =>
    (if spot0 + spot1 + v > previous_sum then 1 else 0) +
      windCount (spot0 + spot1 + v) spot1 v rest

theorem foldl_increaser (rest : List Int) : ∀ c prev : Int,
    (List.foldl increaser (c, prev) rest).1 = c + adjIncreases prev rest := by
  induction rest with
  | nil => intro c prev; simp [adjIncreases]
  | cons v rest ih =>
    intro c prev
    simp only [List.foldl_cons, increaser, adjIncreases]
    by_cases h : v > prev
    · rw [if_pos h, if_pos h, ih]; ring
    · rw [if_neg h, if_neg h, ih]; ring

theorem adjIncreases_eq_spec (rest : List Int) : ∀ prev : Int,
    adjIncreases prev rest = (specIncreaseCount (prev :: rest) : Int) := by
  induction rest with
  | nil => intro prev; simp [adjIncreases, specIncreaseCount]
  | cons v rest ih =>
    intro prev
    have hspec : specIncreaseCount (prev :: v :: rest)
        = specIncreaseCount (v :: rest) + if prev < v then 1 else 0 := by
      simp [specIncreaseCount, List.countP_cons]
    rw [adjIncreases, ih, hspec]
    by_cases h : prev < v
    · rw [if_pos h, if_pos h]; push_cast; ring
    · rw [if_neg h, if_neg h]; push_cast; ring

theorem foldl_windowing (rest : List Int) : ∀ c psum s0 s1 : Int,
    (List.foldl windowing (c, psum, s0, s1) rest).1 = c + windCount psum s0 s1 rest := by
  induction rest with
  | nil => intro c psum s0 s1; simp [windCount]
  | cons v rest ih =>
    intro c psum s0 s1
    simp only [List.foldl_cons, windowing, windCount]
    by_cases h : s0 + s1 + v > psum
    · rw [if_pos h, if_pos h, ih]; ring
    · rw [if_neg h, if_neg h, ih]; ring

theorem windCount_eq_spec (rest : List Int) : ∀ a b c : Int,
    windCount (a + b + c) b c rest = (specWindowCount (a :: b :: c :: rest) : Int) := by
  induction rest with
  | nil => intro a b c; simp [windCount, specWindowCount]
  | cons d rest ih =>
    intro a b c
    have hspec : specWindowCount (a :: b :: c :: d :: rest)
        = specWindowCount (b :: c :: d :: rest) + if b + c + d > a + b + c then 1 else 0 := by
      simp [specWindowCount, List.countP_cons]
    rw [windCount, hspec, ih b c d]
    by_cases h : b + c + d > a + b + c
    · rw [if_pos h, if_pos h]; push_cast; ring
    · rw [if_neg h, if_neg h]; push_cast; ring

/-- C2: for every non-empty integer sequence the increase-counting fold,
seeded with count 0 and the first element as previous, returns exactly the
number of indices `i > 0` with `S[i] > S[i-1]`; on a singleton it returns
0; on `[199,200,208,210,200,207,240,269,260,263]` it returns 7. -/
theorem increase_count_correct :
    (∀ (d0 : Int) (rest : List Int),
        day1Puzzle1 (d0 :: rest) = some (specIncreaseCount (d0 :: rest) : Int))
    ∧ (∀ a : Int, day1Puzzle1 [a] = some 0)
    ∧ day1Puzzle1 [199, 200, 208, 210, 200, 207, 240, 269, 260, 263] = some 7 := by
  refine ⟨?_, ?_, ?_⟩
  · intro d0 rest
    rw [day1Puzzle1, foldl_increaser, adjIncreases_eq_spec]
    simp
  · intro a; rfl
  · decide

/-- C3: for every integer sequence of length at least 4 the windowed fold,
seeded from the first three elements, returns exactly the number of indices
`i ∈ [3, |S|)` where the window sum ending at `i` exceeds the window sum
ending at `i-1`; on `[199,200,208,210,200,207,240,269,260,263]` it
returns 5. -/
theorem windowed_count_correct :
    (∀ S : List Int, 4 ≤ S.length → day1Puzzle2 S = some (specWindowCount S : Int))
    ∧ day1Puzzle2 [199, 200, 208, 210, 200, 207, 240, 269, 260, 263] = some 5 := by
  constructor
  · intro S h
    rcases S with _ | ⟨d0, _ | ⟨d1, _ | ⟨d2, rest⟩⟩⟩
    · simp at h
    · simp at h
    · simp at h
    · rw [day1Puzzle2, foldl_windowing, windCount_eq_spec]
      simp
  · decide

/-- Witness for C3 at the concrete input `[1, 2, 3, 4]`. -/
theorem windowed_count_correct_witness :
    day1Puzzle2 [1, 2, 3, 4] = some (specWindowCount [1, 2, 3, 4] : Int) :=
  windowed_count_correct.1 [1, 2, 3, 4] (by decide)

/-- Strict increase of adjacent elements, as the spec's
"strictly increasing integer sequence". -/
def strictlyIncreasing (S : List Int) : Prop :=
  List.Chain' (· < ·) S

theorem windCount_strict (rest : List Int) : ∀ a b c : Int,
    a < b → b < c → List.Chain' (· < ·) (c :: rest) →
    windCount (a + b + c) b c rest = (rest.length : Int) := by
  induction rest with
  | nil => intro a b c _ _ _; simp [windCount]
  | cons d rest ih =>
    intro a b c hab hbc hch
    rw [List.chain'_cons] at hch
    have had : a < d := lt_trans (lt_trans hab hbc) hch.1
    rw [windCount, if_pos (by omega), ih b c d hbc hch.1 hch.2, List.length_cons]
    push_cast
    ring

/-- C8 counterexample: `[0, 1]` is strictly increasing, yet the windowed
fold does not return `len(S) - 3 = -1`: seeding the accumulator raises
`IndexError` instead. -/
theorem windowed_strict_mono_cex :
    strictlyIncreasing [(0 : Int), 1] ∧
      day1Puzzle2 [(0 : Int), 1] ≠ some ((([(0 : Int), 1]).length : Int) - 3) := by
  constructor
  · exact List.chain'_cons.2 ⟨by norm_num, List.chain'_singleton _⟩
  · decide

/-- C8 (amended): for every strictly increasing integer sequence of length
at least 3, the windowed fold returns `len(S) - 3`. -/
theorem windowed_strict_mono (S : List Int) (h1 : strictlyIncreasing S)
    (h2 : 3 ≤ S.length) :
    day1Puzzle2 S = some ((S.length : Int) - 3) := by
  rcases S with _ | ⟨a, _ | ⟨b, _ | ⟨c, rest⟩⟩⟩
  · simp at h2
  · simp at h2
  · simp at h2
  · rw [strictlyIncreasing, List.chain'_cons, List.chain'_cons] at h1
    rw [day1Puzzle2, foldl_windowing, windCount_strict rest a b c h1.1 h1.2.1 h1.2.2]
    simp [List.length_cons]
    ring

/-- Witness for C8 at the concrete input `[1, 2, 3, 4, 5]`. -/
theorem windowed_strict_mono_witness :
    day1Puzzle2 [1, 2, 3, 4, 5] = some ((([(1 : Int), 2, 3, 4, 5]).length : Int) - 3) :=
  windowed_strict_mono [1, 2, 3, 4, 5]
    (List.chain'_cons.2 ⟨by norm_num, List.chain'_cons.2 ⟨by norm_num,
      List.chain'_cons.2 ⟨by norm_num, List.chain'_cons.2 ⟨by norm_num,
        List.chain'_singleton _⟩⟩⟩⟩)
    (by decide)

/-- C1 (code bug): on the well-formed input `199 200 208 210` the
dataclass-based script's Puzzle 2 raises `TypeError` when extracting the
result with `[0]` (the `Accumulator` dataclass is not subscriptable), so
only the Puzzle 1 value is ever printed. -/
theorem day1_dataclass_puzzle2_raises :
    day1Puzzle2DC [199, 200, 208, 210] = none ∧
      day1ScriptDC ["199", "200", "208", "210"] = [3] := by
  constructor
  · rfl
  · decide

/-- C10: when every input line strips to the empty string the parsed
sequence is empty, `data[0]` raises `IndexError` while seeding the
increase-count accumulator, and neither day-1 script prints anything. -/
theorem empty_input_no_output (input : List String)
    (h : ∀ l ∈ input, pyStrip l = "") :
    parseData input = some [] ∧ day1Puzzle1 [] = none ∧
      day1Script input = [] ∧ day1ScriptDC input = [] := by
  have hfil : (input.map pyStrip).filter (fun x => decide (x ≠ "")) = [] := by
    rw [List.filter_eq_nil_iff]
    intro a ha
    rcases List.mem_map.1 ha with ⟨l, hl, rfl⟩
    simp [h l hl]
  have hp : parseData input = some [] := by
    rw [parseData, hfil]; rfl
  refine ⟨hp, rfl, ?_, ?_⟩
  · rw [day1Script, hp]
    rfl
  · rw [day1ScriptDC, hp]
    rfl

/-- Witness for C10 at the concrete input `["", "  "]`. -/
theorem empty_input_no_output_witness :
    parseData ["", "  "] = some [] ∧ day1Puzzle1 [] = none ∧
      day1Script ["", "  "] = [] ∧ day1ScriptDC ["", "  "] = [] :=
  empty_input_no_output ["", "  "] (by decide)

/-- C4 counterexample: a non-numeric non-empty line is not skipped: it
makes `int(x)` raise `ValueError`, so the parse of `["1", "abc", "2"]`
fails instead of yielding `[1, 2]`. -/
theorem parse_nonnumeric_raises_cex :
    parseData ["1", "abc", "2"] = none ∧ parseData ["1", "abc", "2"] ≠ some [1, 2] := by
  constructor
  · rfl
  · decide

/-- C4 (amended): only empty (after stripping) lines are skipped; when
every non-empty stripped line parses as an integer, the parsed sequence
contains exactly the values of those numeric lines, in order; a
non-numeric non-empty line raises `ValueError` instead of being
skipped. -/
theorem parse_skips_only_empty (input : List String)
    (h : ∀ l ∈ input, pyStrip l = "" ∨ (pyInt? (pyStrip l)).isSome) :
    parseData input = some (input.filterMap (fun l => pyInt? (pyStrip l))) := by
  induction input with
  | nil => rfl
  | cons l rest ih =>
    have hrest := ih (fun x hx => h x (List.mem_cons_of_mem _ hx))
    rw [parseData] at hrest
    rcases h l (List.mem_cons_self _ _) with he | hs
    · have h1 : pyInt? (pyStrip l) = none := by rw [he]; rfl
      rw [parseData, List.map_cons, List.filter_cons, he, List.filterMap_cons, h1]
      rw [if_neg (by decide)]
      exact hrest
    · obtain ⟨v, hv⟩ := Option.isSome_iff_exists.1 hs
      have hne : pyStrip l ≠ "" := by
        intro he2
        rw [he2] at hv
        exact Option.noConfusion hv
      rw [parseData, List.map_cons, List.filter_cons, List.filterMap_cons, hv]
      rw [if_pos (by rw [decide_eq_true_eq]; exact hne)]
      rw [mapIntAll, hv, hrest]

/-- Witness for C4 at the concrete input `["1", "", "2"]`. -/
theorem parse_skips_only_empty_witness :
    parseData ["1", "", "2"]
      = some ((["1", "", "2"] : List String).filterMap (fun l => pyInt? (pyStrip l))) :=
  parse_skips_only_empty ["1", "", "2"] (by decide)

/-- Decimal digit character for a value below ten. -/
def natDigitChar (d : Nat) : Char :=
  Char.ofNat (48 + d)

/-- Decimal rendering of a natural number, most significant digit first
(the digit run of Python `str(n)` for `n ≥ 0`). -/
def renderNat (n : Nat) : List Char :=
  if _h : n < 10 then [natDigitChar n]
  else renderNat (n / 10) ++ [natDigitChar (n % 10)]
termination_by n
decreasing_by exact Nat.div_lt_self (by omega) (by omega)

/-- Modelled from the spec: rendering a parsed value back to "one-value-
per-line text", as Python `str` of an `int` (optional minus sign followed
by decimal digits). The rendering step appears nowhere in the source; the
spec only asks that the strip/filter/parse step round-trips on it. -/
def renderInt (i : Int) : List Char :=
  if i < 0 then '-' :: renderNat i.natAbs else renderNat i.natAbs

/-- One rendered text line per parsed value. -/
def renderLine (i : Int) : String :=
  String.mk (renderInt i)

theorem natDigitChar_toNat {d : Nat} (h : d < 10) : (natDigitChar d).toNat = 48 + d := by
  interval_cases d <;> decide

theorem natDigitChar_isDigit {d : Nat} (h : d < 10) : (natDigitChar d).isDigit = true := by
  interval_cases d <;> decide

theorem digitsToNat_concat (l : List Char) (c : Char) :
    digitsToNat (l ++ [c]) = 10 * digitsToNat l + (c.toNat - 48) := by
  simp [digitsToNat, List.foldl_append]

theorem renderNat_spec (n : Nat) :
    digitsToNat (renderNat n) = n ∧ (renderNat n).all Char.isDigit = true
      ∧ renderNat n ≠ [] := by
  induction n using Nat.strong_induction_on with
  | _ n ih =>
    rw [renderNat]
    by_cases h : n < 10
    · rw [dif_pos h]
      refine ⟨?_, ?_, by simp⟩
      · simp only [digitsToNat, List.foldl_cons, List.foldl_nil]
        rw [natDigitChar_toNat h]
        omega
      · simp [natDigitChar_isDigit h]
    · rw [dif_neg h]
      obtain ⟨ih1, ih2, _⟩ := ih (n / 10) (Nat.div_lt_self (by omega) (by omega))
      refine ⟨?_, ?_, by simp⟩
      · rw [digitsToNat_concat, ih1, natDigitChar_toNat (Nat.mod_lt _ (by omega))]
        omega
      · rw [List.all_append, ih2]
        simp [natDigitChar_isDigit (Nat.mod_lt _ (by omega))]

theorem isDigit_not_whitespace {c : Char} (h : c.isDigit = true) :
    c.isWhitespace = false := by
  by_contra hw
  rw [Bool.not_eq_false, Char.isWhitespace] at hw
  simp only [Bool.or_eq_true, decide_eq_true_eq] at hw
  rcases hw with ((rfl | rfl) | rfl) | rfl <;> exact absurd h (by decide)

theorem isDigit_ne_plus {c : Char} (h : c.isDigit = true) : c ≠ '+' := by
  intro he
  rw [he] at h
  exact absurd h (by decide)

theorem isDigit_ne_minus {c : Char} (h : c.isDigit = true) : c ≠ '-' := by
  intro he
  rw [he] at h
  exact absurd h (by decide)

theorem dropWhile_eq_self_of_none (p : Char → Bool) (l : List Char)
    (h : ∀ c ∈ l, p c = false) : l.dropWhile p = l := by
  cases l with
  | nil => rfl
  | cons c cs =>
    rw [List.dropWhile_cons, h c (List.mem_cons_self _ _)]
    simp

theorem stripChars_eq_self (l : List Char) (h : ∀ c ∈ l, c.isWhitespace = false) :
    stripChars l = l := by
  rw [stripChars, dropWhile_eq_self_of_none _ _ h]
  rw [dropWhile_eq_self_of_none _ _ (fun c hc => h c (List.mem_reverse.1 hc))]
  exact List.reverse_reverse l

theorem renderInt_not_whitespace (i : Int) :
    ∀ c ∈ renderInt i, c.isWhitespace = false := by
  intro c hc
  obtain ⟨_, h2, _⟩ := renderNat_spec i.natAbs
  rw [renderInt] at hc
  by_cases hi : i < 0
  · rw [if_pos hi] at hc
    rcases List.mem_cons.1 hc with rfl | hc2
    · decide
    · exact isDigit_not_whitespace (List.all_eq_true.1 h2 c hc2)
  · rw [if_neg hi] at hc
    exact isDigit_not_whitespace (List.all_eq_true.1 h2 c hc)

theorem renderInt_ne_nil (i : Int) : renderInt i ≠ [] := by
  obtain ⟨_, _, h3⟩ := renderNat_spec i.natAbs
  rw [renderInt]
  by_cases hi : i < 0
  · rw [if_pos hi]; exact List.cons_ne_nil _ _
  · rw [if_neg hi]; exact h3

theorem pyIntAux_neg_digits (rest : List Char) (h1 : rest ≠ [])
    (h2 : rest.all Char.isDigit = true) :
    pyIntAux ('-' :: rest) = some (-(digitsToNat rest : Int)) := by
  simp [pyIntAux, h1, h2]

theorem pyIntAux_digits (c : Char) (rest : List Char)
    (h : (c :: rest).all Char.isDigit = true) :
    pyIntAux (c :: rest) = some ((digitsToNat (c :: rest) : Int)) := by
  have hcd : c.isDigit = true := by
    rw [List.all_cons, Bool.and_eq_true] at h
    exact h.1
  simp [pyIntAux, isDigit_ne_plus hcd, isDigit_ne_minus hcd, h]

theorem pyIntAux_renderInt (i : Int) : pyIntAux (renderInt i) = some i := by
  obtain ⟨h1, h2, h3⟩ := renderNat_spec i.natAbs
  rw [renderInt]
  by_cases hi : i < 0
  · rw [if_pos hi, pyIntAux_neg_digits _ h3 h2, h1]
    congr 1
    omega
  · rw [if_neg hi]
    obtain ⟨c, cs, heq⟩ := List.exists_cons_of_ne_nil h3
    rw [heq, pyIntAux_digits c cs (heq ▸ h2), ← heq, h1]
    congr 1
    omega

theorem pyStrip_renderLine (i : Int) : pyStrip (renderLine i) = renderLine i := by
  rw [renderLine, pyStrip]
  show String.mk (stripChars (renderInt i)) = String.mk (renderInt i)
  rw [stripChars_eq_self _ (renderInt_not_whitespace i)]

theorem renderLine_ne_empty (i : Int) : renderLine i ≠ "" := by
  intro h
  rw [renderLine, String.ext_iff] at h
  exact renderInt_ne_nil i h

/-- C9: the strip/filter/parse step is idempotent as a round trip:
rendering any parsed sequence back to one-value-per-line text and
applying the same strip/filter/parse step yields the identical
sequence. -/
theorem parse_render_roundtrip (L : List Int) :
    parseData (L.map renderLine) = some L := by
  induction L with
  | nil => rfl
  | cons i rest ih =>
    have h2 : pyInt? (renderLine i) = some i := pyIntAux_renderInt i
    rw [parseData] at ih
    rw [parseData, List.map_cons, List.map_cons, List.filter_cons, pyStrip_renderLine]
    rw [if_pos (by rw [decide_eq_true_eq]; exact renderLine_ne_empty i)]
    rw [mapIntAll, h2, ih]

/-- Direction word of a navigation command, the `code` group of the
pattern `(?P<code>up|down|forward) (?P<amount>[0-9]+)`. -/
inductive Code where
  | up
  | down
  | forward
deriving DecidableEq

/-- Characters of each direction word. -/
def codeChars : Code → List Char
  | Code.up => ['u', 'p']
  | Code.down => ['d', 'o', 'w', 'n']
  | Code.forward => ['f', 'o', 'r', 'w', 'a', 'r', 'd']

/-- Consume a literal character sequence from the front of the input,
returning the remainder on success. -/
def dropLit : List Char → List Char → Option (List Char)
  | [], l => some l
  | _ :: _, [] => none
  | p :: ps, c :: cs => if c = p then dropLit ps cs else none

/-- The alternation `up|down|forward` tried at the start of the input.
The three words start with distinct letters, so at most one branch can
succeed and the left-to-right order of Python's regex engine is
irrelevant. -/
def matchCodeTok (l : List Char) : Option (Code × List Char) :=
  match dropLit (codeChars Code.up) l with
  | some rest => some (Code.up, rest)
  | none =>
    match dropLit (codeChars Code.down) l with
    | some rest => some (Code.down, rest)
    | none =>
      match dropLit (codeChars Code.forward) l with
      | some rest => some (Code.forward, rest)
      | none => none

/-- Model of `code_pattern.match(line)` for the pattern
`(?P<code>up|down|forward) (?P<amount>[0-9]+)`: Python `re.match`
anchors at the start only, so the pattern must match a PREFIX of the
input; the greedy `[0-9]+` takes the maximal digit run and any trailing
characters are ignored. The amount is `int` of the digit group. -/
def matchCommand (l : List Char) : Option (Code × Int) :=
  match matchCodeTok l with
  | none => none
  | some (c, rest) =>
    match rest with
    | [] => none
    | r0 :: rest2 =>
      if r0 = ' ' then
        if rest2.takeWhile Char.isDigit = [] then none
        else some (c, (digitsToNat (rest2.takeWhile Char.isDigit) : Int))
      else none

/-- Modelled from the spec: a fully anchored match of
`^(up|down|forward) ([0-9]+)$`, i.e. the digits must extend to the end
of the line. This matcher appears nowhere in the source (which uses the
unanchored-at-the-end `re.match`); it formalises the spec's wording. -/
def fullMatchCommand (l : List Char) : Option (Code × Int) :=
  match matchCodeTok l with
  | none => none
  | some (c, rest) =>
    match rest with
    | [] => none
    | r0 :: rest2 =>
      if r0 = ' ' then
        if rest2 ≠ [] ∧ rest2.all Char.isDigit then some (c, (digitsToNat rest2 : Int))
        else none
      else none

/-- The `move` step of `day2.py`: update the `(horizontal, depth)` pair
according to the matched command, and leave it unchanged when the line
does not match. -/
def move (starting_pos : Int × Int) (line : String) : Int × Int :=
  match starting_pos with
  | (horiz, depth) =>
    match matchCommand (stripChars line.data) with
    | none => (horiz, depth)
    | some (code, amount) =>
      match code with
      | Code.up => (horiz, depth - amount)
      | Code.down => (horiz, depth + amount)
      | Code.forward => (horiz + amount, depth)

/-- The `move_with_aim` step of `day2.py`: update the
`(horizontal, depth, aim)` triple according to the matched command, and
leave it unchanged when the line does not match. -/
def move_with_aim (starting_pos : Int × Int × Int) (line : String) : Int × Int × Int :=
  match starting_pos with
  | (horiz, depth, aim) =>
    match matchCommand (stripChars line.data) with
    | none => (horiz, depth, aim)
    | some (code, amount) =>
      match code with
      | Code.up => (horiz, depth, aim - amount)
      | Code.down => (horiz, depth, aim + amount)
      | Code.forward => (horiz + amount, depth + amount * aim, aim)

/-- Part 1 of `day2.py`: `reduce(move, lines, (0, 0))`. -/
def day2Part1 (lines : List String) : Int × Int :=
  lines.foldl move (0, 0)

/-- Part 2 of `day2.py`: `reduce(move_with_aim, lines, (0, 0, 0))`. -/
def day2Part2 (lines : List String) : Int × Int × Int :=
  lines.foldl move_with_aim (0, 0, 0)

/-- Declarative reading of "the command pattern matches at the start of
the line": the line is a direction word, a space, a non-empty digit run,
then arbitrary trailing characters. -/
def hasCmdAtStart (l : List Char) : Prop :=
  ∃ (c : Code) (d : Char) (ds rest : List Char),
    (d :: ds).all Char.isDigit = true ∧ l = codeChars c ++ ' ' :: d :: ds ++ rest

theorem dropLit_eq_some (ps : List Char) : ∀ (l r : List Char),
    dropLit ps l = some r ↔ l = ps ++ r := by
  induction ps with
  | nil => intro l r; simp [dropLit]
  | cons p ps ih =>
    intro l r
    cases l with
    | nil => simp [dropLit]
    | cons c cs =>
      by_cases hc : c = p
      · subst hc
        rw [dropLit, if_pos rfl]
        simp [ih]
      · rw [dropLit, if_neg hc]
        simp [hc]

theorem matchCodeTok_decomp {l : List Char} {c : Code} {r : List Char}
    (h : matchCodeTok l = some (c, r)) : l = codeChars c ++ r := by
  rw [matchCodeTok] at h
  cases hu : dropLit (codeChars Code.up) l with
  | some rest =>
    rw [hu] at h
    cases h
    exact (dropLit_eq_some _ _ _).1 hu
  | none =>
    rw [hu] at h
    cases hd : dropLit (codeChars Code.down) l with
    | some rest =>
      rw [hd] at h
      cases h
      exact (dropLit_eq_some _ _ _).1 hd
    | none =>
      rw [hd] at h
      cases hf : dropLit (codeChars Code.forward) l with
      | some rest =>
        rw [hf] at h
        cases h
        exact (dropLit_eq_some _ _ _).1 hf
      | none => rw [hf] at h; cases h

theorem matchCodeTok_of_code (c : Code) (r : List Char) :
    matchCodeTok (codeChars c ++ r) = some (c, r) := by
  cases c <;> simp [matchCodeTok, codeChars, dropLit]

theorem matchCommand_isSome_iff (l : List Char) :
    (matchCommand l).isSome = true ↔ hasCmdAtStart l := by
  constructor
  · intro h
    cases ht : matchCodeTok l with
    | none => rw [matchCommand, ht] at h; simp at h
    | some cr =>
      obtain ⟨c, rest⟩ := cr
      cases rest with
      | nil => rw [matchCommand, ht] at h; simp at h
      | cons r0 rest2 =>
        simp only [matchCommand, ht] at h
        by_cases hr : r0 = ' '
        · subst hr
          rw [if_pos rfl] at h
          by_cases hnil : rest2.takeWhile Char.isDigit = []
          · rw [if_pos hnil] at h; simp at h
          · obtain ⟨d, ds1, hds⟩ := List.exists_cons_of_ne_nil hnil
            refine ⟨c, d, ds1, rest2.dropWhile Char.isDigit, ?_, ?_⟩
            · rw [← hds]; exact List.all_takeWhile
            · rw [matchCodeTok_decomp ht]
              have hsplit : rest2 = (d :: ds1) ++ rest2.dropWhile Char.isDigit := by
                rw [← hds, List.takeWhile_append_dropWhile]
              conv_lhs => rw [hsplit]
              simp
        · rw [if_neg hr] at h; simp at h
  · rintro ⟨c, d, ds, rest, hall, rfl⟩
    have hd : d.isDigit = true := by
      rw [List.all_cons, Bool.and_eq_true] at hall
      exact hall.1
    have htw : (d :: (ds ++ rest)).takeWhile Char.isDigit
        = d :: ((ds ++ rest).takeWhile Char.isDigit) := by
      simp [List.takeWhile_cons, hd]
    simp [matchCommand, matchCodeTok_of_code, htw]

/-- C5 counterexample: the trimmed line `forward 5x` does not match the
fully anchored pattern `^(up|down|forward) ([0-9]+)$`, yet it updates
both accumulators, because `re.match` only anchors at the start. -/
theorem move_full_anchor_cex :
    fullMatchCommand (stripChars ("forward 5x".data)) = none ∧
      move (0, 0) "forward 5x" = (5, 0) ∧
      move_with_aim (0, 0, 0) "forward 5x" = (5, 0, 0) ∧
      move (0, 0) "forward 5x" ≠ (0, 0) := by
  refine ⟨rfl, rfl, rfl, by decide⟩

/-- C5 (amended): a line updates the accumulator iff, after trimming, a
PREFIX of it matches `(up|down|forward) ([0-9]+)` (trailing characters
after the digit run are ignored); every line without such a prefix match
leaves both the `(horizontal, depth)` and `(horizontal, depth, aim)`
accumulators unchanged and reports no error. -/
theorem move_prefix_anchor (p : Int × Int) (q : Int × Int × Int) (line : String) :
    ((matchCommand (stripChars line.data)).isSome = true
        ↔ hasCmdAtStart (stripChars line.data))
    ∧ (matchCommand (stripChars line.data) = none →
        move p line = p ∧ move_with_aim q line = q) := by
  refine ⟨matchCommand_isSome_iff _, fun h => ⟨?_, ?_⟩⟩
  · obtain ⟨h1, h2⟩ := p
    simp [move, h]
  · obtain ⟨h1, h2, h3⟩ := q
    simp [move_with_aim, h]

/-- Witness for C5 at the non-matching concrete line `"hello"`. -/
theorem move_prefix_anchor_witness :
    move (1, 2) "hello" = (1, 2) ∧ move_with_aim (3, 4, 5) "hello" = (3, 4, 5) :=
  (move_prefix_anchor (1, 2) (3, 4, 5) "hello").2 rfl

/-- C7: the no-aim fold over
`["forward 5","down 5","forward 8","up 3","down 8","forward 2"]` ends at
horizontal 15 and depth 10, with product 150. -/
theorem move_example :
    day2Part1 ["forward 5", "down 5", "forward 8", "up 3", "down 8", "forward 2"] = (15, 10)
    ∧ (day2Part1 ["forward 5", "down 5", "forward 8", "up 3", "down 8", "forward 2"]).1 *
        (day2Part1 ["forward 5", "down 5", "forward 8", "up 3", "down 8", "forward 2"]).2
      = 150 := by
  exact ⟨rfl, rfl⟩

/-- C6: the with-aim fold over
`["forward 5","down 5","forward 8","up 3","down 8","forward 2"]` ends at
horizontal 15 and depth 60 (and aim 10), with product 900. -/
theorem move_with_aim_example :
    day2Part2 ["forward 5", "down 5", "forward 8", "up 3", "down 8", "forward 2"] = (15, 60, 10)
    ∧ (day2Part2 ["forward 5", "down 5", "forward 8", "up 3", "down 8", "forward 2"]).1 *
        (day2Part2 ["forward 5", "down 5", "forward 8", "up 3", "down 8", "forward 2"]).2.1
      = 900 := by
  exact ⟨rfl, rfl⟩

end AoC
